import Mathlib

/-!
Shallow embedding of the selection-accumulation, cohort-derivation and
query-plumbing logic of `src/app.py` (a Streamlit CRM dashboard), together
with theorems settling the specification claims about it.
-/

namespace CrmDashboard

/-- A Python scalar value as it may appear in the `store_code` column of a
pandas DataFrame: either a string or an integer.  `app.py` compares such
values both raw (`isin` in the add path, line 247) and coerced through
`str(...)` / `.astype(str)` (the remove path, line 259). -/
inductive PyVal where
  | s (v : String)
  | i (n : Int)
deriving DecidableEq, Repr

/-- Python `str(...)` applied to a `PyVal`, as used on line 259 of `app.py`
(`.astype(str)` on the column and `str(c)` on each removal key). -/
def PyVal.pyStr : PyVal → String
  | .s v => v
  | .i n => toString n

/-- One row of the result / selection DataFrames of `app.py`: columns
`store_code, shop_name, member_cnt, purchaser_cnt, total_cnt`
(session-state initialisation, lines 43-46). -/
structure StoreRow where
  store_code : PyVal
  shop_name : String
  member_cnt : Int
  purchaser_cnt : Int
  total_cnt : Int
deriving DecidableEq, Repr

/-- `pandas.DataFrame.drop_duplicates(subset=["store_code"], keep="last")`
(line 250 of `app.py`): a row is kept iff no later row carries the same
`store_code`; kept rows stay in their original relative order. -/
def dropDupLast : List StoreRow → List StoreRow
  | [] => []
  | r :: rs =>
    if rs.any (fun r2 => decide (r2.store_code = r.store_code)) then dropDupLast rs
    else r :: dropDupLast rs

/-- `results[results["store_code"].isin(picked_codes)]` (line 247 of
`app.py`): the rows of the current result set whose `store_code` is among
the picked codes (raw value equality, no string coercion here). -/
def pickRows (results : List StoreRow) (picked : List PyVal) : List StoreRow :=
  results.filter (fun r => decide (r.store_code ∈ picked))

/-- The add action (lines 246-251 of `app.py`): concatenate the accumulated
selection with the picked result rows, then deduplicate on `store_code`
keeping the last occurrence. -/
def addSelected (sel results : List StoreRow) (picked : List PyVal) : List StoreRow :=
  dropDupLast (sel ++ pickRows results picked)

/-- The remove action (lines 258-260 of `app.py`): keep exactly the rows
whose `store_code`, coerced to a string, is not among the string-coerced
removal keys. -/
def removeSelected (sel : List StoreRow) (keys : List PyVal) : List StoreRow :=
  sel.filter (fun r => decide (r.store_code.pyStr ∉ keys.map PyVal.pyStr))

/-- The declared columns of the selection DataFrame (lines 44-46 and 253-256
of `app.py`). -/
def selectionColumns : List String :=
  ["store_code", "shop_name", "member_cnt", "purchaser_cnt", "total_cnt"]

/-- A pandas DataFrame of store rows, with its column labels made explicit
(needed to talk about the schema of the empty frame produced by clear). -/
structure SelDF where
  cols : List String
  rows : List StoreRow
deriving DecidableEq, Repr

/-- The clear action (lines 253-256 of `app.py`): replace the selection by a
freshly built empty DataFrame with the canonical columns, ignoring the
prior contents. -/
def clearSelection (_prior : SelDF) : SelDF :=
  ⟨selectionColumns, []⟩

/-- `int(sel_df["member_cnt"].sum())` (line 276 of `app.py`). -/
def total_member (sel : List StoreRow) : Int :=
  (sel.map StoreRow.member_cnt).sum

/-- `int(sel_df["purchaser_cnt"].sum())` (line 277 of `app.py`). -/
def total_buyer_only (sel : List StoreRow) : Int :=
  (sel.map StoreRow.purchaser_cnt).sum

/-- `int(sel_df["total_cnt"].sum())` (line 278 of `app.py`). -/
def total_sum (sel : List StoreRow) : Int :=
  (sel.map StoreRow.total_cnt).sum

/-- The fixed LMS unit cost, `LMS_UNIT = 23.5` (line 287 of `app.py`);
the Python float 23.5 is exactly representable, so we model it in ℚ. -/
def LMS_UNIT : ℚ := 23.5

/-- A cohort column's estimated cost at a given unit rate: the code computes
`total * LMS_UNIT` for each of the three columns (lines 292-294, 304). -/
def costAtUnit (unit : ℚ) (count : Int) : ℚ := (count : ℚ) * unit

/-- The member-column cost row entry, `total_member * LMS_UNIT` (line 292). -/
def memberCost (sel : List StoreRow) : ℚ := costAtUnit LMS_UNIT (total_member sel)

/-- The purchaser-only-column cost row entry, `total_buyer_only * LMS_UNIT`
(line 293). -/
def buyerOnlyCost (sel : List StoreRow) : ℚ := costAtUnit LMS_UNIT (total_buyer_only sel)

/-- The union-column cost row entry, `total_sum * LMS_UNIT`
(lines 294 and 304). -/
def unionCost (sel : List StoreRow) : ℚ := costAtUnit LMS_UNIT (total_sum sel)

/-- A separator character of the keyword tokenizer: the regular expression
`[,\s]+` on line 127 of `app.py` splits on commas and whitespace
(space, tab, newline, carriage return, vertical tab, form feed; ASCII
model of Python's `\s`). -/
def isSepChar (c : Char) : Bool :=
  c == ',' || c == ' ' || c == '\t' || c == '\n' || c == '\r' ||
    c == Char.ofNat 11 || c == Char.ofNat 12

/-- Worker for the tokenizer: scans the characters, accumulating the current
maximal separator-free run (reversed) in `acc` and emitting it when a
separator or the end of input is reached.  Empty runs are dropped, which
is exactly the `if t.strip()` filter on line 127 of `app.py`; the
`t.strip()` trimming is the identity on these runs because every
whitespace character is a separator. -/
def tokenizeAux : List Char → List Char → List (List Char)
  | [], acc => if acc.isEmpty then [] else [acc.reverse]
  | c :: cs, acc =>
    if isSepChar c then
      if acc.isEmpty then tokenizeAux cs []
      else acc.reverse :: tokenizeAux cs []
    else tokenizeAux cs (c :: acc)

/-- `[t.strip() for t in re.split(r"[,\s]+", kw) if t.strip()]`
(line 127 of `app.py`) on a character list. -/
def tokenizeChars (s : List Char) : List (List Char) :=
  tokenizeAux s []

/-- The keyword tokenizer of `app.py` on a string. -/
def tokens (kw : String) : List String :=
  (tokenizeChars kw.data).map (fun cs => String.mk cs)

/-- One word of a keyword input together with the separator run that follows
it; used to state separator-style invariance of the tokenizer. -/
structure KwPiece where
  word : List Char
  sep : List Char
deriving DecidableEq, Repr

/-- A keyword input assembled from an optional leading separator run and a
sequence of word/separator pieces. -/
def glue (lead : List Char) (pieces : List KwPiece) : List Char :=
  lead ++ (pieces.map (fun p => p.word ++ p.sep)).flatten

/-- A non-empty run of non-separator characters. -/
def goodWordB (w : List Char) : Bool :=
  !w.isEmpty && w.all (fun c => !isSepChar c)

/-- A (possibly empty) run of separator characters. -/
def goodSepB (s : List Char) : Bool :=
  s.all isSepChar

/-- A well-formed piece list: every word is a non-empty separator-free run,
every separator is a separator run, and every separator standing between
two words is non-empty. -/
def wellFormedB : List KwPiece → Bool
  | [] => true
  | p :: rest =>
    goodWordB p.word && goodSepB p.sep && (rest.isEmpty || !p.sep.isEmpty) &&
      wellFormedB rest

/-- A row of the `M` or `PO` intermediate relations of the search query of
`app.py` (lines 152-197): a store code, the display shop name, and a
contact identifier. -/
structure CohortRow where
  shop : String
  name : String
  cid : String
deriving DecidableEq, Repr

/-- The `PO` common table expression (lines 190-197 of `app.py`): the
purchaser rows anti-joined against the member rows on
`(SHOP_ID, CID)` — a purchaser row survives iff no member row carries
the same store code and identifier. -/
def po (M P : Finset CohortRow) : Finset CohortRow :=
  P.filter (fun p => ∀ m ∈ M, ¬ (m.shop = p.shop ∧ m.cid = p.cid))

/-- `COUNT(DISTINCT CASE WHEN X.SRC = 'M' THEN X.CID END)` for the result
group `(s, n)` (line 201 of `app.py`): the number of distinct member
identifiers at that store/name. -/
def memberCnt (M : Finset CohortRow) (s n : String) : ℕ :=
  ((M.filter (fun r => r.shop = s ∧ r.name = n)).image CohortRow.cid).card

/-- `COUNT(DISTINCT CASE WHEN X.SRC = 'PO' THEN X.CID END)` for the result
group `(s, n)` (line 202 of `app.py`). -/
def purchaserCnt (M P : Finset CohortRow) (s n : String) : ℕ :=
  (((po M P).filter (fun r => r.shop = s ∧ r.name = n)).image CohortRow.cid).card

/-- `COUNT(DISTINCT X.CID)` over the `UNION ALL` of `M` and `PO` for the
result group `(s, n)` (lines 203-208 of `app.py`). -/
def totalCnt (M P : Finset CohortRow) (s n : String) : ℕ :=
  (((M.filter (fun r => r.shop = s ∧ r.name = n)).image CohortRow.cid) ∪
      (((po M P).filter (fun r => r.shop = s ∧ r.name = n)).image CohortRow.cid)).card

/-- The session state touched by the search handler of `app.py`:
`st.session_state.results` and `st.session_state.selected_df`. -/
structure AppState where
  results : List StoreRow
  selected_df : List StoreRow
deriving DecidableEq, Repr

/-- Outcome of one press of the search button. -/
structure SearchStep where
  state : AppState
  warned : Bool
  dispatched : Bool
deriving DecidableEq, Repr

/-- The validation logic of the search handler (lines 117-216 of `app.py`):
with no brand selected, or an empty (stripped) keyword, a warning is
shown, `st.session_state.results` is set to an EMPTY DataFrame and no
query runs; otherwise the warehouse query runs and its result (here the
parameter `queryResult`, the warehouse being an opaque collaborator)
replaces the stored results.  The accumulated selection is untouched in
every branch. -/
def doSearch (st : AppState) (brands : List String) (kw : String)
    (queryResult : List StoreRow) : SearchStep :=
  if brands = [] then ⟨⟨[], st.selected_df⟩, true, false⟩
  else if kw = "" then ⟨⟨[], st.selected_df⟩, true, false⟩
  else ⟨⟨queryResult, st.selected_df⟩, false, true⟩

/-- Which of the connection and the cursor of `run_query` are currently
open. -/
structure ResState where
  connOpen : Bool
  curOpen : Bool
deriving DecidableEq, Repr

/-- Python's `try ... finally`: run the body, then run the finaliser on the
resulting state whether the body succeeded or raised, propagating the
body's outcome. -/
def tryFinally {α : Type} (body : ResState → Except Unit α × ResState)
    (fin : ResState → ResState) (s : ResState) : Except Unit α × ResState :=
  let r := body s
  (r.1, fin r.2)

/-- `run_query` (lines 63-75 of `app.py`), with the fallible steps made
explicit: after `get_connection()` succeeds, `conn.cursor()`,
`cur.execute(...)` and `cur.fetch_pandas_all()` may each raise (modelled
by the three Boolean fault flags); the nested `try/finally` blocks close
the cursor and then the connection on every path. -/
def runQuery (cursorFails execFails fetchFails : Bool) (df : List StoreRow) :
    Except Unit (List StoreRow) × ResState :=
  tryFinally
    (fun s =>
      if cursorFails then (Except.error (), s)
      else
        tryFinally
          (fun s2 =>
            if execFails then (Except.error (), s2)
            else if fetchFails then (Except.error (), s2)
            else (Except.ok df, s2))
          (fun s2 => { s2 with curOpen := false })
          { s with curOpen := true })
    (fun s => { s with connOpen := false })
    ⟨true, false⟩

/-- The two-store selection of the spec's worked scenario
(`("001","Gangnam",100,20,120)` and `("002","Daegu",50,10,60)`). -/
def exampleSelection : List StoreRow :=
  [⟨.s "001", "Gangnam", 100, 20, 120⟩, ⟨.s "002", "Daegu", 50, 10, 60⟩]

/-- A concrete prior result row used in counterexamples and witnesses. -/
def priorRow : StoreRow := ⟨.s "001", "Gangnam", 100, 20, 120⟩

/-- The keyword input `"a, b  c"` as word/separator pieces. -/
def kwPiecesA : List KwPiece :=
  [⟨['a'], [',', ' ']⟩, ⟨['b'], [' ', ' ']⟩, ⟨['c'], []⟩]

/-- The keyword input `"a,b,c"` as word/separator pieces. -/
def kwPiecesB : List KwPiece :=
  [⟨['a'], [',']⟩, ⟨['b'], [',']⟩, ⟨['c'], []⟩]

/- ------------------------------------------------------------------ -/
/- Helper lemmas about the deduplication underlying the add action.    -/
/- ------------------------------------------------------------------ -/

theorem mem_of_mem_dropDupLast (rows : List StoreRow) (r : StoreRow)
    (h : r ∈ dropDupLast rows) : r ∈ rows := by
  induction rows with
  | nil => simp [dropDupLast] at h
  | cons x xs ih =>
    by_cases hb : xs.any (fun r2 => decide (r2.store_code = x.store_code)) = true
    · rw [show dropDupLast (x :: xs) = dropDupLast xs by simp [dropDupLast, hb]] at h
      exact List.mem_cons_of_mem _ (ih h)
    · rw [show dropDupLast (x :: xs) = x :: dropDupLast xs by simp [dropDupLast, hb]] at h
      rcases List.mem_cons.mp h with h | h
      · exact h ▸ List.mem_cons_self x xs
      · exact List.mem_cons_of_mem _ (ih h)

theorem dropDupLast_filter_length (rows : List StoreRow) (code : PyVal) :
    ((dropDupLast rows).filter (fun r => decide (r.store_code = code))).length
      = if code ∈ rows.map StoreRow.store_code then 1 else 0 := by
  induction rows with
  | nil => simp [dropDupLast]
  | cons x xs ih =>
    by_cases hb : xs.any (fun r2 => decide (r2.store_code = x.store_code)) = true
    · rw [show dropDupLast (x :: xs) = dropDupLast xs by simp [dropDupLast, hb], ih]
      have hmem : (code ∈ (x :: xs).map StoreRow.store_code)
          ↔ (code ∈ xs.map StoreRow.store_code) := by
        simp only [List.map_cons, List.mem_cons]
        constructor
        · rintro (hc | hc)
          · obtain ⟨r2, hr2, he⟩ := List.any_eq_true.mp hb
            exact hc ▸ List.mem_map.mpr ⟨r2, hr2, of_decide_eq_true he⟩
          · exact hc
        · exact fun hc => Or.inr hc
      rw [if_congr hmem rfl rfl]
    · rw [show dropDupLast (x :: xs) = x :: dropDupLast xs by simp [dropDupLast, hb],
        List.filter_cons]
      by_cases hc : x.store_code = code
      · have hnotin : code ∉ xs.map StoreRow.store_code := by
          intro hm
          obtain ⟨r2, hr2, he⟩ := List.mem_map.mp hm
          exact hb (List.any_eq_true.mpr ⟨r2, hr2, decide_eq_true (he.trans hc.symm)⟩)
        have hd : decide (x.store_code = code) = true := decide_eq_true hc
        simp only [hd, if_true, List.length_cons, ih, List.map_cons, List.mem_cons]
        have hcs : code = x.store_code := hc.symm
        have hforall : ∀ r2 ∈ xs, ¬ r2.store_code = x.store_code := fun r2 hr2 he =>
          hb (List.any_eq_true.mpr ⟨r2, hr2, decide_eq_true he⟩)
        simp [hnotin, hcs]
        exact hforall
      · have hd : decide (x.store_code = code) = false := decide_eq_false hc
        have hne : ¬ (code = x.store_code) := fun h => hc h.symm
        simp only [hd, Bool.false_eq_true, if_false, ih, List.map_cons, List.mem_cons]
        simp [hne]

theorem dropDupLast_append (xs ys : List StoreRow) :
    dropDupLast (xs ++ ys)
      = (dropDupLast xs).filter
          (fun r => decide (r.store_code ∉ ys.map StoreRow.store_code))
        ++ dropDupLast ys := by
  induction xs with
  | nil => simp [dropDupLast]
  | cons x xs ih =>
    have hsplit : ((x :: xs) ++ ys) = x :: (xs ++ ys) := rfl
    by_cases h1 : xs.any (fun r2 => decide (r2.store_code = x.store_code)) = true
    · have hall : (xs ++ ys).any (fun r2 => decide (r2.store_code = x.store_code)) = true := by
        rw [List.any_append, h1]; rfl
      rw [hsplit, show dropDupLast (x :: (xs ++ ys)) = dropDupLast (xs ++ ys) by
          simp [dropDupLast, hall],
        ih, show dropDupLast (x :: xs) = dropDupLast xs by simp [dropDupLast, h1]]
    · by_cases h2 : ys.any (fun r2 => decide (r2.store_code = x.store_code)) = true
      · have hall : (xs ++ ys).any (fun r2 => decide (r2.store_code = x.store_code)) = true := by
          rw [List.any_append, h2]; simp
        have hmem : x.store_code ∈ ys.map StoreRow.store_code := by
          obtain ⟨r2, hr2, he⟩ := List.any_eq_true.mp h2
          exact List.mem_map.mpr ⟨r2, hr2, of_decide_eq_true he⟩
        rw [hsplit, show dropDupLast (x :: (xs ++ ys)) = dropDupLast (xs ++ ys) by
            simp [dropDupLast, hall],
          ih, show dropDupLast (x :: xs) = x :: dropDupLast xs by simp [dropDupLast, h1],
          List.filter_cons]
        simp [hmem]
      · have hall : (xs ++ ys).any (fun r2 => decide (r2.store_code = x.store_code)) = false := by
          rw [List.any_append]
          simp only [Bool.or_eq_false_iff]
          exact ⟨Bool.eq_false_iff.mpr h1, Bool.eq_false_iff.mpr h2⟩
        have hmem : x.store_code ∉ ys.map StoreRow.store_code := by
          intro hm
          obtain ⟨r2, hr2, he⟩ := List.mem_map.mp hm
          exact h2 (List.any_eq_true.mpr ⟨r2, hr2, decide_eq_true he⟩)
        rw [hsplit, show dropDupLast (x :: (xs ++ ys)) = x :: dropDupLast (xs ++ ys) by
            simp [dropDupLast, hall],
          ih, show dropDupLast (x :: xs) = x :: dropDupLast xs by simp [dropDupLast, h1],
          List.filter_cons]
        simp [hmem]

/- ------------------------------------------------------------------ -/
/- Helper lemmas about the keyword tokenizer.                          -/
/- ------------------------------------------------------------------ -/

theorem tokenizeAux_sep_skip (s : List Char) (r : List Char)
    (h : goodSepB s = true) : tokenizeAux (s ++ r) [] = tokenizeAux r [] := by
  induction s with
  | nil => rfl
  | cons c cs ih =>
    simp only [goodSepB, List.all_cons, Bool.and_eq_true] at h
    simp only [List.cons_append, tokenizeAux, h.1, if_true, List.isEmpty_nil]
    exact ih h.2

theorem tokenizeAux_word_push (w : List Char)
    (h : ∀ c ∈ w, isSepChar c = false) (r acc : List Char) :
    tokenizeAux (w ++ r) acc = tokenizeAux r (w.reverse ++ acc) := by
  induction w generalizing acc with
  | nil => rfl
  | cons c cs ih =>
    have hc : isSepChar c = false := h c (List.mem_cons_self c cs)
    simp only [List.cons_append, tokenizeAux, hc, Bool.false_eq_true, if_false,
      List.append_eq]
    rw [ih (fun d hd => h d (List.mem_cons_of_mem c hd)) (c :: acc)]
    congr 1
    simp

theorem tokenizeAux_flush (s acc : List Char) (hs : goodSepB s = true)
    (hacc : acc ≠ []) : tokenizeAux s acc = [acc.reverse] := by
  obtain ⟨a, as, rfl⟩ := List.exists_cons_of_ne_nil hacc
  induction s with
  | nil => rfl
  | cons c cs ih =>
    simp only [goodSepB, List.all_cons, Bool.and_eq_true] at hs
    simp only [tokenizeAux, hs.1, if_true, List.isEmpty_cons, Bool.false_eq_true, if_false]
    have := tokenizeAux_sep_skip cs [] hs.2
    simp only [List.append_nil] at this
    rw [this]
    rfl

theorem tokenizeAux_flatten (pieces : List KwPiece) (h : wellFormedB pieces = true) :
    tokenizeAux ((pieces.map (fun p => p.word ++ p.sep)).flatten) []
      = pieces.map KwPiece.word := by
  induction pieces with
  | nil => rfl
  | cons p rest ih =>
    simp only [wellFormedB, Bool.and_eq_true] at h
    obtain ⟨⟨⟨hw, hs⟩, hsep⟩, hrest⟩ := h
    have hwne : p.word ≠ [] := by
      simp only [goodWordB, Bool.and_eq_true, Bool.not_eq_true'] at hw
      exact fun he => by simp [he] at hw
    have hwsf : ∀ c ∈ p.word, isSepChar c = false := by
      simp only [goodWordB, Bool.and_eq_true, List.all_eq_true, Bool.not_eq_true'] at hw
      exact hw.2
    simp only [List.map_cons, List.flatten_cons, List.append_assoc]
    rw [tokenizeAux_word_push p.word hwsf _ [], List.append_nil]
    have hrevne : p.word.reverse ≠ [] := by
      simp [hwne]
    cases rest with
    | nil =>
      simp only [List.map_nil, List.flatten_nil, List.append_nil]
      rw [tokenizeAux_flush p.sep _ hs hrevne]
      simp
    | cons q qs =>
      have hsne : p.sep ≠ [] := by
        simp only [List.isEmpty_cons, Bool.false_or, Bool.not_eq_true'] at hsep
        exact fun he => by simp [he] at hsep
      obtain ⟨c, cs, hps⟩ := List.exists_cons_of_ne_nil hsne
      have hc : isSepChar c = true := by
        have := hs
        rw [hps] at this
        simp only [goodSepB, List.all_cons, Bool.and_eq_true] at this
        exact this.1
      have hcs : goodSepB cs = true := by
        have := hs
        rw [hps] at this
        simp only [goodSepB, List.all_cons, Bool.and_eq_true] at this
        exact this.2
      rw [hps]
      simp only [List.cons_append, tokenizeAux, hc, if_true, List.append_eq]
      rw [if_neg (by simp [hrevne])]
      rw [tokenizeAux_sep_skip cs _ hcs, ih hrest]
      simp

theorem tokens_glue (lead : List Char) (pieces : List KwPiece)
    (hl : goodSepB lead = true) (hp : wellFormedB pieces = true) :
    tokens (String.mk (glue lead pieces))
      = pieces.map (fun p => String.mk p.word) := by
  show (tokenizeAux (lead ++ (pieces.map (fun p => p.word ++ p.sep)).flatten) []).map
      (fun cs => String.mk cs) = pieces.map (fun p => String.mk p.word)
  rw [tokenizeAux_sep_skip lead _ hl, tokenizeAux_flatten pieces hp, List.map_map]
  rfl

/- ------------------------------------------------------------------ -/
/- Claim theorems.                                                     -/
/- ------------------------------------------------------------------ -/

/-- C1: adding picked result rows to the selection leaves exactly one row per
store code, and any surviving row whose store code occurs among the newly
added rows is itself one of the newly added rows (last-write-wins
replacement, not a merge). -/
theorem claim1_add_last_write_wins (sel results : List StoreRow) (picked : List PyVal) :
    (∀ code ∈ (sel ++ pickRows results picked).map StoreRow.store_code,
        ((addSelected sel results picked).filter
            (fun r => decide (r.store_code = code))).length = 1)
    ∧ (∀ r ∈ addSelected sel results picked,
        r.store_code ∈ (pickRows results picked).map StoreRow.store_code →
          r ∈ pickRows results picked) := by
  constructor
  · intro code hcode
    rw [addSelected, dropDupLast_filter_length, if_pos hcode]
  · intro r hr hcode
    rw [addSelected, dropDupLast_append] at hr
    rcases List.mem_append.mp hr with h | h
    · exact absurd hcode (of_decide_eq_true (List.mem_filter.mp h).2)
    · exact mem_of_mem_dropDupLast _ _ h

/-- Witness for C1: re-adding store "001" with fresh counts leaves a single
row for it, and that row is the newly added one. -/
theorem claim1_witness :
    ((addSelected [⟨.s "001", "Old", 1, 1, 2⟩] [⟨.s "001", "New", 5, 5, 10⟩]
        [.s "001"]).filter (fun r => decide (r.store_code = .s "001"))).length = 1
    ∧ (⟨.s "001", "New", 5, 5, 10⟩ : StoreRow)
        ∈ pickRows [⟨.s "001", "New", 5, 5, 10⟩] [.s "001"] := by
  constructor
  · exact (claim1_add_last_write_wins [⟨.s "001", "Old", 1, 1, 2⟩]
      [⟨.s "001", "New", 5, 5, 10⟩] [.s "001"]).1 _ (by decide)
  · exact (claim1_add_last_write_wins [⟨.s "001", "Old", 1, 1, 2⟩]
      [⟨.s "001", "New", 5, 5, 10⟩] [.s "001"]).2 _ (by decide) (by decide)

/-- C10: after an add, the selection decomposes as the previously retained
rows whose store code was not re-added, in their original order, followed
by the deduplicated newly added rows — so a re-added store's surviving row
sits at the position of the newly appended occurrence, not updated in
place. -/
theorem claim10_readd_relocates_to_end (sel results : List StoreRow) (picked : List PyVal) :
    addSelected sel results picked
      = (dropDupLast sel).filter
          (fun r => decide (r.store_code ∉ (pickRows results picked).map StoreRow.store_code))
        ++ dropDupLast (pickRows results picked) :=
  dropDupLast_append sel (pickRows results picked)

/-- C2 counterexample: searching with an empty brand selection does NOT leave
the prior search results unchanged — the code resets them to an empty
DataFrame (lines 118-120 of `app.py`). -/
theorem claim2_cex_results_cleared :
    ¬ ((doSearch ⟨[priorRow], [priorRow]⟩ [] "seoul" []).state.results = [priorRow]) := by
  decide

/-- C2 (amended): a search submitted with an empty brand selection or an
empty keyword surfaces a warning, dispatches no warehouse query and leaves
the accumulated selection unchanged, but resets the stored search results
to an empty table. -/
theorem claim2_validation_amended (st : AppState) (brands : List String) (kw : String)
    (qr : List StoreRow) (h : brands = [] ∨ kw = "") :
    (doSearch st brands kw qr).warned = true
    ∧ (doSearch st brands kw qr).dispatched = false
    ∧ (doSearch st brands kw qr).state.selected_df = st.selected_df
    ∧ (doSearch st brands kw qr).state.results = [] := by
  rcases h with h | h
  · subst h; simp [doSearch]
  · subst h
    by_cases hb : brands = []
    · subst hb; simp [doSearch]
    · simp [doSearch, hb]

/-- Witness for the amended C2: a concrete state with prior results and a
prior selection, searched with no brand selected. -/
theorem claim2_witness :
    (doSearch ⟨[priorRow], [priorRow]⟩ [] "seoul" []).warned = true
    ∧ (doSearch ⟨[priorRow], [priorRow]⟩ [] "seoul" []).dispatched = false
    ∧ (doSearch ⟨[priorRow], [priorRow]⟩ [] "seoul" []).state.selected_df = [priorRow]
    ∧ (doSearch ⟨[priorRow], [priorRow]⟩ [] "seoul" []).state.results = [] :=
  claim2_validation_amended ⟨[priorRow], [priorRow]⟩ [] "seoul" [] (Or.inl rfl)

/-- C3: on the spec's worked selection the totals are 150 / 30 / 180 and the
three cohort-column costs at the fixed 23.5 unit rate are 3525.0 / 705.0 /
4230.0; for every selection each total is the column sum and each cost is
that total times the unit rate, and the cost is linear in the unit rate. -/
theorem claim3_totals_and_cost :
    total_member exampleSelection = 150
    ∧ total_buyer_only exampleSelection = 30
    ∧ total_sum exampleSelection = 180
    ∧ memberCost exampleSelection = 3525
    ∧ buyerOnlyCost exampleSelection = 705
    ∧ unionCost exampleSelection = 4230
    ∧ (∀ sel : List StoreRow,
        total_member sel = (sel.map StoreRow.member_cnt).sum
        ∧ total_buyer_only sel = (sel.map StoreRow.purchaser_cnt).sum
        ∧ total_sum sel = (sel.map StoreRow.total_cnt).sum
        ∧ memberCost sel = costAtUnit LMS_UNIT (total_member sel)
        ∧ buyerOnlyCost sel = costAtUnit LMS_UNIT (total_buyer_only sel)
        ∧ unionCost sel = costAtUnit LMS_UNIT (total_sum sel))
    ∧ (∀ (u : ℚ) (c : Int), costAtUnit (2 * u) c = 2 * costAtUnit u c) := by
  refine ⟨by decide, by decide, by decide, ?_, ?_, ?_,
    fun sel => ⟨rfl, rfl, rfl, rfl, rfl, rfl⟩, fun u c => ?_⟩
  · norm_num [memberCost, costAtUnit, LMS_UNIT, total_member, exampleSelection]
  · norm_num [buyerOnlyCost, costAtUnit, LMS_UNIT, total_buyer_only, exampleSelection]
  · norm_num [unionCost, costAtUnit, LMS_UNIT, total_sum, exampleSelection]
  · rw [costAtUnit, costAtUnit]; ring

/-- C4: tokenizing a keyword built from words joined by arbitrary non-empty
comma/whitespace separator runs yields exactly the word list, so two
inputs differing only in their separator style produce the same tokens. -/
theorem claim4_tokens_separator_invariant (lead1 lead2 : List Char)
    (ps1 ps2 : List KwPiece)
    (hl1 : goodSepB lead1 = true) (hl2 : goodSepB lead2 = true)
    (h1 : wellFormedB ps1 = true) (h2 : wellFormedB ps2 = true)
    (hw : ps1.map KwPiece.word = ps2.map KwPiece.word) :
    tokens (String.mk (glue lead1 ps1)) = ps1.map (fun p => String.mk p.word)
    ∧ tokens (String.mk (glue lead1 ps1)) = tokens (String.mk (glue lead2 ps2)) := by
  have t1 := tokens_glue lead1 ps1 hl1 h1
  have t2 := tokens_glue lead2 ps2 hl2 h2
  refine ⟨t1, ?_⟩
  have e1 : ps1.map (fun p => String.mk p.word)
      = (ps1.map KwPiece.word).map (fun w => String.mk w) := by
    rw [List.map_map]; rfl
  have e2 : ps2.map (fun p => String.mk p.word)
      = (ps2.map KwPiece.word).map (fun w => String.mk w) := by
    rw [List.map_map]; rfl
  rw [t1, t2, e1, e2, hw]

/-- Witness for C4: the inputs "a, b  c" and "a,b,c" tokenize identically, to
the word list a, b, c. -/
theorem claim4_witness :
    tokens (String.mk (glue [] kwPiecesA)) = kwPiecesA.map (fun p => String.mk p.word)
    ∧ tokens (String.mk (glue [] kwPiecesA)) = tokens (String.mk (glue [] kwPiecesB)) :=
  claim4_tokens_separator_invariant [] [] kwPiecesA kwPiecesB
    (by decide) (by decide) (by decide) (by decide) (by decide)

/-- C5: the anti-joined purchasers-only relation never shares a
(store, identifier) pair with the members relation, and consequently every
result group satisfies total count = member count + purchaser-only
count. -/
theorem claim5_po_disjoint_total (M P : Finset CohortRow) (s n : String) :
    (M.image (fun r => (r.shop, r.cid))) ∩ ((po M P).image (fun r => (r.shop, r.cid))) = ∅
    ∧ totalCnt M P s n = memberCnt M s n + purchaserCnt M P s n := by
  constructor
  · ext pr
    simp only [Finset.mem_inter, Finset.mem_image, Finset.not_mem_empty, iff_false, not_and]
    rintro ⟨m, hm, hmp⟩ ⟨p, hp, hpp⟩
    rw [po, Finset.mem_filter] at hp
    have h := hmp.trans hpp.symm
    exact hp.2 m hm ⟨congrArg Prod.fst h, congrArg Prod.snd h⟩
  · rw [totalCnt, memberCnt, purchaserCnt]
    apply Finset.card_union_of_disjoint
    rw [Finset.disjoint_left]
    rintro x hx1 hx2
    obtain ⟨m, hm, hmcid⟩ := Finset.mem_image.mp hx1
    obtain ⟨p, hp, hpcid⟩ := Finset.mem_image.mp hx2
    rw [Finset.mem_filter] at hm hp
    have hpo := hp.1
    rw [po, Finset.mem_filter] at hpo
    apply hpo.2 m hm.1
    constructor
    · rw [hm.2.1, hp.2.1]
    · rw [hmcid, hpcid]

/-- C6: removing keys none of whose string forms matches a stored store code
leaves the selection exactly unchanged, and remove is idempotent. -/
theorem claim6_remove_noop_idempotent (sel other : List StoreRow) (keys : List PyVal)
    (h : ∀ k ∈ keys, ∀ r ∈ sel, PyVal.pyStr k ≠ PyVal.pyStr r.store_code) :
    removeSelected sel keys = sel
    ∧ removeSelected (removeSelected other keys) keys = removeSelected other keys := by
  constructor
  · rw [removeSelected, List.filter_eq_self]
    intro r hr
    apply decide_eq_true
    intro hmem
    obtain ⟨k, hk, he⟩ := List.mem_map.mp hmem
    exact h k hk r hr he
  · rw [removeSelected, List.filter_eq_self]
    intro r hr
    exact (List.mem_filter.mp hr).2

/-- Witness for C6: removing the absent key "999" from the worked selection
changes nothing, twice as well as once. -/
theorem claim6_witness :
    removeSelected exampleSelection [PyVal.s "999"] = exampleSelection
    ∧ removeSelected (removeSelected exampleSelection [PyVal.s "999"]) [PyVal.s "999"]
        = removeSelected exampleSelection [PyVal.s "999"] :=
  claim6_remove_noop_idempotent exampleSelection exampleSelection [PyVal.s "999"]
    (by decide)

/-- C7: clear always yields zero rows under the canonical declared columns,
independently of the prior selection. -/
theorem claim7_clear_canonical (s t : SelDF) :
    (clearSelection s).rows = [] ∧ (clearSelection s).cols = selectionColumns
    ∧ clearSelection s = clearSelection t :=
  ⟨rfl, rfl, rfl⟩

/-- C8: whichever of the cursor-creation, execute and fetch steps fails, the
connection and the cursor of `run_query` are closed when it returns or
propagates, and the fault-free run returns the materialized table. -/
theorem claim8_run_query_releases (cursorFails execFails fetchFails : Bool)
    (df : List StoreRow) :
    (runQuery cursorFails execFails fetchFails df).2.connOpen = false
    ∧ (runQuery cursorFails execFails fetchFails df).2.curOpen = false
    ∧ (cursorFails = false → execFails = false → fetchFails = false →
        (runQuery cursorFails execFails fetchFails df).1 = Except.ok df) := by
  refine ⟨?_, ?_, ?_⟩ <;>
    cases cursorFails <;> cases execFails <;> cases fetchFails <;>
      simp [runQuery, tryFinally]

/-- Witness for C8: the fault-free run closes both resources and returns the
table. -/
theorem claim8_witness :
    (runQuery false false false exampleSelection).2.connOpen = false
    ∧ (runQuery false false false exampleSelection).2.curOpen = false
    ∧ (runQuery false false false exampleSelection).1 = Except.ok exampleSelection :=
  ⟨(claim8_run_query_releases false false false exampleSelection).1,
   (claim8_run_query_releases false false false exampleSelection).2.1,
   (claim8_run_query_releases false false false exampleSelection).2.2 rfl rfl rfl⟩

/-- C9: a stored row is kept by remove exactly when no removal key has the
same string form as its store code, and in particular the integer store
code 1001 is removed by the string key "1001". -/
theorem claim9_remove_matches_by_string (sel : List StoreRow) (keys : List PyVal)
    (r : StoreRow) (hr : r ∈ sel) :
    (r ∈ removeSelected sel keys
      ↔ ∀ k ∈ keys, PyVal.pyStr k ≠ PyVal.pyStr r.store_code)
    ∧ removeSelected [⟨PyVal.i 1001, "Shop", 1, 0, 1⟩] [PyVal.s "1001"] = [] := by
  constructor
  · rw [removeSelected, List.mem_filter]
    constructor
    · rintro ⟨-, hd⟩ k hk he
      exact (of_decide_eq_true hd) (List.mem_map.mpr ⟨k, hk, he⟩)
    · intro hall
      refine ⟨hr, decide_eq_true ?_⟩
      intro hmem
      obtain ⟨k, hk, he⟩ := List.mem_map.mp hmem
      exact hall k hk he
  · decide

/-- Witness for C9: instantiated at the worked selection, the key "001" and
its first row. -/
theorem claim9_witness :
    (priorRow ∈ removeSelected exampleSelection [PyVal.s "001"]
      ↔ ∀ k ∈ [PyVal.s "001"], PyVal.pyStr k ≠ PyVal.pyStr priorRow.store_code)
    ∧ removeSelected [⟨PyVal.i 1001, "Shop", 1, 0, 1⟩] [PyVal.s "1001"] = [] :=
  claim9_remove_matches_by_string exampleSelection [PyVal.s "001"] priorRow (by decide)

end CrmDashboard
